import Mathlib

/-!
Verification development for `scripts_eng/make_depth_3d_folder.py` of the
MakeAnything3D repository: a shallow embedding of the depth-guided parallax
3D pipeline (depth normalization, parallax warp, stereo compositing, chunked
concurrent driving) together with theorems settling the specification claims.

Images are modelled as a structure carrying explicit dimensions and a total
pixel function into the rationals (one channel suffices: the source applies
every operation channel-wise); machine floats are modelled by exact rationals.
-/

namespace Make3D

/-- A decoded raster image: `width`, `height`, and a total pixel function.
Pixel access outside the stated dimensions is irrelevant to every theorem. -/
structure Image where
  width : ℕ
  height : ℕ
  pix : ℕ → ℕ → ℚ

/-- `np.clip(v, lo, hi)`: numpy computes `min(hi, max(lo, v))`. -/
def np_clip (v lo hi : ℚ) : ℚ := min hi (max lo v)

/-- Pixel lookup at signed coordinates, `cv2.remap` default border
(`BORDER_CONSTANT`, value 0) outside the image. -/
def pixZ (img : Image) (x y : ℤ) : ℚ :=
  if 0 ≤ x ∧ 0 ≤ y then img.pix x.toNat y.toNat else 0

/-- Bilinear sampling (`cv2.INTER_LINEAR`, the configured
`INTERPOLATION_TYPE`) of an image at fractional coordinates. -/
def sampleBilinear (img : Image) (xq yq : ℚ) : ℚ :=
  let x0 : ℤ := ⌊xq⌋
  let y0 : ℤ := ⌊yq⌋
  let tx : ℚ := xq - x0
  let ty : ℚ := yq - y0
  (1 - tx) * (1 - ty) * pixZ img x0 y0
    + tx * (1 - ty) * pixZ img (x0 + 1) y0
    + (1 - tx) * ty * pixZ img x0 (y0 + 1)
    + tx * ty * pixZ img (x0 + 1) (y0 + 1)

/-- `cv2.remap(image, map_x, map_y, interpolation=INTER_LINEAR)`: the output
has the shape of the coordinate maps (the source builds them with
`np.meshgrid` at the image's own shape), each output pixel sampled at the
mapped source coordinate. -/
def cv2_remap (img : Image) (mapx mapy : ℕ → ℕ → ℚ) : Image :=
  ⟨img.width, img.height, fun x y => sampleBilinear img (mapx x y) (mapy x y)⟩

/-- `cv2.resize(img, (w, h))`: exact output dimensions; the pixel content is
produced by sampling at the proportionally mapped source coordinate (the
interpolation kernel is irrelevant to every claim, which concern dimensions
only for resized images). -/
def cv2_resize (img : Image) (w h : ℕ) : Image :=
  ⟨w, h, fun x y => img.pix (x * img.width / w) (y * img.height / h)⟩

/-- `np.hstack((a, b))` on images of equal height: widths add. -/
def np_hstack (a b : Image) : Image :=
  ⟨a.width + b.width, a.height,
    fun x y => if x < a.width then a.pix x y else b.pix (x - a.width) y⟩

/-- `np.vstack((a, b))` on images of equal width: heights add. -/
def np_vstack (a b : Image) : Image :=
  ⟨a.width, a.height + b.height,
    fun x y => if y < a.height then a.pix x y else b.pix x (y - a.height)⟩

/-- The module-level 3D parameters of the script: `PARALLAX_SCALE`,
`TYPE3D`, `LEFT_RIGHT`, `new_width`, `new_height`. -/
structure Config where
  parallax_scale : ℚ
  type3d : String
  left_right : String
  new_width : ℕ
  new_height : ℕ

/-- The values assigned in the script: scale 15, FSBS, LEFT, no resize. -/
def defaultConfig : Config := ⟨15, "FSBS", "LEFT", 0, 0⟩

/-- `parallax = (depth.astype(np.float32) / 255.0) * PARALLAX_SCALE`,
evaluated per pixel on the (already resolution-matched) depth field. -/
def parallax_of (cfg : Config) (depth : Image) (x y : ℕ) : ℚ :=
  depth.pix x y / 255 * cfg.parallax_scale

/-- `shift_left = np.clip(x + parallax, 0, width - 1)` per pixel. -/
def shift_left_map (cfg : Config) (depth : Image) (width : ℕ) (x y : ℕ) : ℚ :=
  np_clip ((x : ℚ) + parallax_of cfg depth x y) 0 ((width : ℚ) - 1)

/-- `shift_right = np.clip(x - parallax, 0, width - 1)` per pixel. -/
def shift_right_map (cfg : Config) (depth : Image) (width : ℕ) (x y : ℕ) : ℚ :=
  np_clip ((x : ℚ) - parallax_of cfg depth x y) 0 ((width : ℚ) - 1)

/-- The vertical coordinate map passed to `cv2.remap`: the meshgrid `y`
itself, so the warp moves nothing vertically. -/
def identity_y_map (_x y : ℕ) : ℚ := (y : ℚ)

/-- `left_image = cv2.remap(image, shift_left, y, ...)`. -/
def warp_left (cfg : Config) (image depth : Image) : Image :=
  cv2_remap image (shift_left_map cfg depth image.width) identity_y_map

/-- `right_image = cv2.remap(image, shift_right, y, ...)`. -/
def warp_right (cfg : Config) (image depth : Image) : Image :=
  cv2_remap image (shift_right_map cfg depth image.width) identity_y_map

/-- `image_size_correction`: centers each eye image on a black canvas of
`new_width x new_height`; the top/left offsets use floor division, any odd
leftover pixel going to the bottom/right margin. -/
def image_size_correction (cfg : Config) (current_height current_width : ℕ)
    (left_image right_image : Image) : Image × Image :=
  let top := (cfg.new_height - current_height) / 2
  let left := (cfg.new_width - current_width) / 2
  let place : Image → Image := fun im =>
    ⟨cfg.new_width, cfg.new_height, fun x y =>
      if left ≤ x ∧ x < left + current_width ∧ top ≤ y ∧ y < top + current_height
      then im.pix (x - left) (y - top) else 0⟩
  (place left_image, place right_image)

/-- The `TYPE3D`/`LEFT_RIGHT` if-chain of `image3d_processing` that builds
`image3d` from the two eye images. When no branch assigns `image3d`
(unrecognized `TYPE3D`, or a recognized `TYPE3D` with unrecognized
`LEFT_RIGHT`), the Python local stays unbound; this is `none` here. -/
def image3d_pack (cfg : Config) (width height : ℕ)
    (left_image right_image : Image) : Option Image :=
  if cfg.type3d = "HSBS" then
    let lr := cv2_resize left_image (width / 2) height
    let rr := cv2_resize right_image (width / 2) height
    if cfg.left_right = "LEFT" then some (np_hstack lr rr)
    else if cfg.left_right = "RIGHT" then some (np_hstack rr lr)
    else none
  else if cfg.type3d = "HOU" then
    let lr := cv2_resize left_image width (height / 2)
    let rr := cv2_resize right_image width (height / 2)
    if cfg.left_right = "LEFT" then some (np_vstack lr rr)
    else if cfg.left_right = "RIGHT" then some (np_vstack rr lr)
    else none
  else if cfg.type3d = "FSBS" then
    if cfg.left_right = "LEFT" then some (np_hstack left_image right_image)
    else if cfg.left_right = "RIGHT" then some (np_hstack right_image left_image)
    else none
  else if cfg.type3d = "FOU" then
    if cfg.left_right = "LEFT" then some (np_vstack left_image right_image)
    else if cfg.left_right = "RIGHT" then some (np_vstack right_image left_image)
    else none
  else none

/-- `image3d_processing` up to the composite: resample the depth field to the
image's resolution when the shapes differ, warp both eyes, apply the optional
size correction, and pack. Returns the composite, or `none` when the
`TYPE3D`/`LEFT_RIGHT` chain leaves `image3d` unassigned. -/
def image3d_processing (cfg : Config) (image depth0 : Image) : Option Image :=
  let depth := if image.height = depth0.height ∧ image.width = depth0.width
    then depth0 else cv2_resize depth0 image.width image.height
  let height := image.height
  let width := image.width
  let left_image := warp_left cfg image depth
  let right_image := warp_right cfg image depth
  if cfg.new_width ≠ 0 ∧ cfg.new_height ≠ 0 then
    let p := image_size_correction cfg height width left_image right_image
    image3d_pack cfg cfg.new_width cfg.new_height p.1 p.2
  else
    image3d_pack cfg width height left_image right_image

/-!
Depth Normalizer. `depth_processing` runs
`cv2.normalize(depth, None, 0, 255, norm_type=cv2.NORM_MINMAX)` followed by
`.astype(np.uint8)`. OpenCV's `NORM_MINMAX` computes
`scale = (dmax - dmin) * (smax - smin > eps ? 1/(smax - smin) : 0)` and
`shift = dmin - smin * scale` with `dmin = 0`, `dmax = 255`, so a uniform
field gets `scale = 0`, `shift = 0` (no division). The `uint8` cast
truncates; all values here are nonnegative, so truncation is the floor.
The depth field is traversed as a flat list of its values.
-/

/-- `cv2.normalize(d, None, 0, 255, NORM_MINMAX).astype(np.uint8)` on a flat
nonempty list of depth values (empty input maps to empty output). -/
def cv2_normalize_minmax_u8 (d : List ℚ) : List ℤ :=
  match d with
  | [] => []
  | v :: vs =>
    let smin := vs.foldl min v
    let smax := vs.foldl max v
    let scale := if smax - smin > 0 then 255 / (smax - smin) else 0
    let shift := 0 - smin * scale
    (v :: vs).map fun a => ⌊a * scale + shift⌋

/-- The values of an image, row by row, as a flat list. -/
def imageToList (img : Image) : List ℚ :=
  (List.range img.height).flatMap fun y => (List.range img.width).map fun x => img.pix x y

/-- The same min-max normalization applied to an image's raster: used by the
pipeline driver model of `depth_processing`. -/
def image_normalize_minmax_u8 (img : Image) : Image :=
  match imageToList img with
  | [] => ⟨img.width, img.height, fun _ _ => 0⟩
  | v :: vs =>
    let smin := vs.foldl min v
    let smax := vs.foldl max v
    let scale := if smax - smin > 0 then 255 / (smax - smin) else 0
    let shift := 0 - smin * scale
    ⟨img.width, img.height, fun x y => ((⌊img.pix x y * scale + shift⌋ : ℤ) : ℚ)⟩

/-!
Job Partitioner. `run_processing` iterates
`for start_frame in range(0, total_frames, chunk_size)` and for each start
computes `end_frame = min(start_frame + chunk_size - 1, total_frames - 1)`;
`extract_frames` slices `all_frames_in_directory[start_frame:end_frame+1]`.
-/

/-- Python `range(start, stop, step)` for a positive step (a zero step raises
in Python; here it yields the empty list, and every theorem assumes
`0 < step`). -/
def rangeStep (step : ℕ) : ℕ → ℕ → List ℕ
  | start, stop =>
    if _h : start < stop ∧ 0 < step then
      start :: rangeStep step (start + step) stop
    else []
termination_by start stop => stop - start
decreasing_by simp_wf; omega

/-- `extract_frames`: the chunk slice `lst[start_frame:end_frame+1]`
(inclusive end). The counter bookkeeping of the Python function touches only
`frame_counter`, which nothing else reads. -/
def extract_frames (lst : List α) (start_frame end_frame : ℕ) : List α :=
  (lst.drop start_frame).take (end_frame + 1 - start_frame)

/-- The full list of chunks `run_processing` submits for a frame list `lst`
and chunk size `C`: one `extract_frames` slice per start index. -/
def run_processing_chunks (lst : List α) (C : ℕ) : List (List α) :=
  (rangeStep C 0 lst.length).map fun s =>
    extract_frames lst s (min (s + C - 1) (lst.length - 1))

/-!
Worker Pool Coordinator. The shared counter `threads_count` starts at 0.
Admission (in `run_processing`, under `threads_count.get_lock()`): if
`threads_count.value < max_threads` then increment and proceed, else retry.
Completion (end of `chunk_processing`, under the same lock):
`threads_count.value = max(1, threads_count.value - 1)`.
The counter is a Python int, modelled as an unbounded integer.
-/

/-- One atomic operation on `threads_count`. -/
inductive PoolOp where
  | admitOp : PoolOp
  | complete : PoolOp
deriving DecidableEq

/-- The effect of one pool operation on the counter: a successful admission
increments only below `max_threads`; a completion runs
`max(1, value - 1)`. -/
def threads_step (max_threads : ℤ) (v : ℤ) : PoolOp → ℤ
  | .admitOp => if v < max_threads then v + 1 else v
  | .complete => max 1 (v - 1)

/-- The counter after a sequence of pool operations, from its initial 0. -/
def threads_run (max_threads : ℤ) (ops : List PoolOp) : ℤ :=
  ops.foldl (threads_step max_threads) 0

/-- Outcome of one pass through the admission `while True` loop body in
`run_processing`. -/
inductive AdmissionResult where
  | admitted (new_count : ℤ) : AdmissionResult
  | raisedNameError : AdmissionResult
deriving DecidableEq

/-- One pass through the admission loop: under the lock, if the counter is
below `max_threads` it is incremented and the loop breaks; otherwise control
reaches `time.sleep(5)` — and the module never imports `time`, so that line
raises `NameError` instead of sleeping. -/
def admission_attempt (max_threads v : ℤ) : AdmissionResult :=
  if v < max_threads then .admitted (v + 1) else .raisedNameError

/-!
Pipeline Driver. `chunk_processing` iterates over the frame paths of a chunk
with NO try/except anywhere on the path
`depth_processing -> image3d_processing -> os.remove`:
- `cv2.imread` of an unreadable/corrupt file returns `None` (it does not
  raise); `model_depth.infer_image(None)` then raises on `raw_image.shape`,
  and the uncaught exception aborts the whole chunk loop;
- when the `TYPE3D`/`LEFT_RIGHT` chain assigns no composite,
  `cv2.imwrite(..., image3d)` raises `UnboundLocalError`: nothing is written
  and `os.remove` is not reached;
- `cv2.imwrite` returns `False` on a failed write (it does not raise); the
  source ignores the return value and runs `os.remove(frame_path)`
  unconditionally afterwards.
-/

/-- The uncaught Python exceptions the per-frame path can raise. -/
inductive PyError where
  | inferOnNoneImage : PyError
  | unboundLocalImage3d : PyError
deriving DecidableEq

/-- One source frame as the driver sees it: whether the path is a regular
file, whether `cv2.imread` succeeds, the decoded content and the external
Depth Provider's output for it when it does, and whether `cv2.imwrite` of
the composite returns success. -/
structure FrameFile where
  isFile : Bool
  readable : Bool
  image : Image
  depth : Image
  writeOk : Bool

/-- The on-disk effects of processing one frame: whether a composite output
file now exists, and whether the source file was deleted. -/
structure FrameResult where
  wrote : Bool
  deleted : Bool
deriving DecidableEq

/-- `depth_processing`: `cv2.imread`, external depth inference, min-max
normalization to `uint8`. An unreadable file makes `cv2.imread` return
`None` and the inference call raise. -/
def depth_processing (f : FrameFile) : Except PyError Image :=
  if f.readable then .ok (image_normalize_minmax_u8 f.depth)
  else .error .inferOnNoneImage

/-- The body of `chunk_processing`'s loop for one frame path: skip
non-files; run `depth_processing` then `image3d_processing` (whose
`cv2.imwrite` result is ignored) then `os.remove`. Returns the frame's
on-disk effects plus the uncaught exception, if one was raised. -/
def chunk_frame_step (cfg : Config) (f : FrameFile) : FrameResult × Option PyError :=
  if f.isFile = false then (⟨false, false⟩, none)
  else
    match depth_processing f with
    | .error e => (⟨false, false⟩, some e)
    | .ok depth =>
      match image3d_processing cfg f.image depth with
      | none => (⟨false, false⟩, some .unboundLocalImage3d)
      | some _ => (⟨f.writeOk, true⟩, none)

/-- `chunk_processing` over a chunk: frames are processed in list order; an
uncaught exception aborts the loop, so every later frame is untouched (no
output written, source retained, reported here as `⟨false, false⟩`). -/
def chunk_processing (cfg : Config) : List FrameFile → List FrameResult × Option PyError
  | [] => ([], none)
  | f :: fs =>
    match chunk_frame_step cfg f with
    | (r, some e) => (r :: fs.map (fun _ => ⟨false, false⟩), some e)
    | (r, none) =>
      let rest := chunk_processing cfg fs
      (r :: rest.1, rest.2)

/-! Concrete frames and images used by witnesses and counterexamples. -/

/-- A 1x1 test image. -/
def img1x1 : Image := ⟨1, 1, fun _ _ => 7⟩

/-- A 3x2 test image (odd width). -/
def img3x2 : Image := ⟨3, 2, fun x y => (x : ℚ) + y⟩

/-- A frame whose composite write fails (`cv2.imwrite` returns `False`). -/
def badWriteFrame : FrameFile := ⟨true, true, img1x1, img1x1, false⟩

/-- A fully processable frame. -/
def goodFrame : FrameFile := ⟨true, true, img1x1, img1x1, true⟩

/-- An unreadable/corrupt frame: `cv2.imread` returns `None`. -/
def corruptFrame : FrameFile := ⟨true, false, img1x1, img1x1, true⟩

/-- The configuration with parallax scale 0 (and otherwise the script's
values). -/
def zeroScaleConfig : Config := ⟨0, "FSBS", "LEFT", 0, 0⟩

/-! Helper lemmas. -/

theorem np_clip_of_mem {v lo hi : ℚ} (h1 : lo ≤ v) (h2 : v ≤ hi) :
    np_clip v lo hi = v := by
  rw [np_clip, max_eq_right h1, min_eq_right h2]

theorem sampleBilinear_natCast (img : Image) (x y : ℕ) :
    sampleBilinear img (x : ℚ) (y : ℚ) = img.pix x y := by
  have hx : ⌊(x : ℚ)⌋ = (x : ℤ) := Int.floor_natCast x
  have hy : ⌊(y : ℚ)⌋ = (y : ℤ) := Int.floor_natCast y
  simp only [sampleBilinear, hx, hy, Int.cast_natCast, sub_self]
  simp [pixZ]

/-- C5: for every pixel coordinate of a W-wide image (W at least 1) and every
depth value and parallax scale (hence every displacement magnitude, of any
sign and size), the computed left-eye sampling x-coordinate
clamp(x + displacement, 0, W-1) and right-eye x-coordinate
clamp(x - displacement, 0, W-1) lie within [0, W-1], and the vertical
coordinate map used by the warp is the identity on y. -/
theorem c5_clamp_bounds (cfg : Config) (depth : Image) (W : ℕ) (hW : 1 ≤ W)
    (x y : ℕ) :
    0 ≤ shift_left_map cfg depth W x y ∧
    shift_left_map cfg depth W x y ≤ (W : ℚ) - 1 ∧
    0 ≤ shift_right_map cfg depth W x y ∧
    shift_right_map cfg depth W x y ≤ (W : ℚ) - 1 ∧
    identity_y_map x y = (y : ℚ) := by
  have hW1 : (0 : ℚ) ≤ (W : ℚ) - 1 := by
    have h1 : (1 : ℚ) ≤ (W : ℚ) := by exact_mod_cast hW
    linarith
  refine ⟨?_, ?_, ?_, ?_, rfl⟩ <;>
    simp only [shift_left_map, shift_right_map, np_clip]
  · exact le_min hW1 (le_max_left _ _)
  · exact min_le_left _ _
  · exact le_min hW1 (le_max_left _ _)
  · exact min_le_left _ _

/-- C5 witness at the script's configuration, a 1x1 depth, W = 1, pixel
(0, 0). -/
theorem c5_clamp_bounds_witness :
    0 ≤ shift_left_map defaultConfig img1x1 1 0 0 ∧
    shift_left_map defaultConfig img1x1 1 0 0 ≤ ((1 : ℕ) : ℚ) - 1 ∧
    0 ≤ shift_right_map defaultConfig img1x1 1 0 0 ∧
    shift_right_map defaultConfig img1x1 1 0 0 ≤ ((1 : ℕ) : ℚ) - 1 ∧
    identity_y_map 0 0 = ((0 : ℕ) : ℚ) :=
  c5_clamp_bounds defaultConfig img1x1 1 (by decide) 0 0

/-- C7: with parallax scale 0, both warped eye images agree with the source
image in dimensions and at every pixel of the image (zero displacement means
identity sampling, and bilinear sampling at an integer coordinate returns
that pixel). -/
theorem c7_zero_parallax_identity (cfg : Config) (hS : cfg.parallax_scale = 0)
    (image depth : Image) (x y : ℕ) (hx : x < image.width) :
    (warp_left cfg image depth).width = image.width ∧
    (warp_left cfg image depth).height = image.height ∧
    (warp_right cfg image depth).width = image.width ∧
    (warp_right cfg image depth).height = image.height ∧
    (warp_left cfg image depth).pix x y = image.pix x y ∧
    (warp_right cfg image depth).pix x y = image.pix x y := by
  have hpar : parallax_of cfg depth x y = 0 := by
    simp [parallax_of, hS]
  have hx0 : (0 : ℚ) ≤ (x : ℚ) := by positivity
  have hxle : (x : ℚ) ≤ (image.width : ℚ) - 1 := by
    have h1 : ((x + 1 : ℕ) : ℚ) ≤ (image.width : ℚ) := by
      exact_mod_cast Nat.succ_le_of_lt hx
    push_cast at h1
    linarith
  have hl : shift_left_map cfg depth image.width x y = (x : ℚ) := by
    rw [shift_left_map, hpar, add_zero, np_clip_of_mem hx0 hxle]
  have hr : shift_right_map cfg depth image.width x y = (x : ℚ) := by
    rw [shift_right_map, hpar, sub_zero, np_clip_of_mem hx0 hxle]
  refine ⟨rfl, rfl, rfl, rfl, ?_, ?_⟩
  · show sampleBilinear image (shift_left_map cfg depth image.width x y)
      (identity_y_map x y) = image.pix x y
    rw [hl, identity_y_map, sampleBilinear_natCast]
  · show sampleBilinear image (shift_right_map cfg depth image.width x y)
      (identity_y_map x y) = image.pix x y
    rw [hr, identity_y_map, sampleBilinear_natCast]

/-- C7 witness: parallax scale 0 on the 1x1 test image at pixel (0, 0). -/
theorem c7_zero_parallax_identity_witness :
    (warp_left zeroScaleConfig img1x1 img1x1).width = img1x1.width ∧
    (warp_left zeroScaleConfig img1x1 img1x1).height = img1x1.height ∧
    (warp_right zeroScaleConfig img1x1 img1x1).width = img1x1.width ∧
    (warp_right zeroScaleConfig img1x1 img1x1).height = img1x1.height ∧
    (warp_left zeroScaleConfig img1x1 img1x1).pix 0 0 = img1x1.pix 0 0 ∧
    (warp_right zeroScaleConfig img1x1 img1x1).pix 0 0 = img1x1.pix 0 0 :=
  c7_zero_parallax_identity zeroScaleConfig rfl img1x1 img1x1 0 0 (by decide)

/-- C8: the claim's retry-after-backoff behavior is the code's intent (the
saturated branch is `time.sleep(5)` with a retry comment), but the module
never imports `time`: evaluated at a saturated pool (counter 3,
max_threads 3), the admission attempt raises `NameError` instead of
sleeping and retrying. -/
theorem c8_saturated_admission_raises :
    admission_attempt 3 3 = AdmissionResult.raisedNameError ∧
    admission_attempt 3 2 = AdmissionResult.admitted 3 := by
  constructor <;> rfl

/-- C3 counterexample: a chunk completion is NOT always a decrement. The
completion update is `max(1, value - 1)`: at counter value 1 (one chunk in
flight, max_threads 3) completing the chunk leaves the counter at 1 instead
of decrementing it to 0. -/
theorem c3_completion_no_decrement_cex :
    threads_step 3 1 PoolOp.complete = 1 ∧ (1 : ℤ) ≠ 0 := by
  constructor <;> decide

/-- Invariant: from a value in [0, max], any pool operation keeps the
counter in [0, max] (for max at least 1). -/
theorem threads_foldl_bounds (m : ℤ) (hm : 1 ≤ m) :
    ∀ (ops : List PoolOp) (v : ℤ), 0 ≤ v → v ≤ m →
      0 ≤ ops.foldl (threads_step m) v ∧ ops.foldl (threads_step m) v ≤ m := by
  intro ops
  induction ops with
  | nil => intro v h0 h1; exact ⟨h0, h1⟩
  | cons op rest ih =>
    intro v h0 h1
    rcases op with _ | _ <;>
      simp only [List.foldl_cons, threads_step] <;>
      apply ih <;> omega

/-- C3 amended: for any sequence of admissions and completions from 0, the
counter stays within [0, max_workers] (it cannot underflow below zero, nor
exceed max_workers); an admission increments exactly when the counter is
below max_workers; but a completion performs `max(1, value - 1)`: it
decrements only from values at least 2, and from values at most 1 it leaves
(or raises) the counter at 1 rather than decrementing to 0. -/
theorem c3_counter_amended (m : ℤ) (hm : 1 ≤ m) :
    (∀ ops : List PoolOp, 0 ≤ threads_run m ops ∧ threads_run m ops ≤ m) ∧
    (∀ v : ℤ, v < m → threads_step m v PoolOp.admitOp = v + 1) ∧
    (∀ v : ℤ, m ≤ v → threads_step m v PoolOp.admitOp = v) ∧
    (∀ v : ℤ, 2 ≤ v → threads_step m v PoolOp.complete = v - 1) ∧
    (∀ v : ℤ, v ≤ 1 → threads_step m v PoolOp.complete = 1) := by
  refine ⟨fun ops => threads_foldl_bounds m hm ops 0 le_rfl (by omega), ?_, ?_, ?_, ?_⟩
  · intro v hv; simp [threads_step, hv]
  · intro v hv; simp [threads_step, not_lt.mpr hv]
  · intro v hv; simp only [threads_step]; omega
  · intro v hv; simp only [threads_step]; omega

/-- C3 witness: max_workers 3, the bound instantiated on the operation
sequence admit, admit, complete, complete. -/
theorem c3_counter_amended_witness :
    0 ≤ threads_run 3 [PoolOp.admitOp, PoolOp.admitOp, PoolOp.complete, PoolOp.complete] ∧
    threads_run 3 [PoolOp.admitOp, PoolOp.admitOp, PoolOp.complete, PoolOp.complete] ≤ 3 :=
  (c3_counter_amended 3 (by decide)).1 _

/-- C4 counterexample: for an odd single-eye width the HSBS composite is
narrower than the single-eye width. Eye images of width 3 are each resized
to width `3 // 2 = 1` and stacked side by side: total width 2, not 3. -/
theorem c4_hsbs_odd_width_cex :
    ((image3d_processing ⟨15, "HSBS", "LEFT", 0, 0⟩ img3x2 img3x2).map
        Image.width) = some 2 ∧ (2 : ℕ) ≠ 3 := by
  constructor
  · rfl
  · decide

/-- C4 amended: for eye images of width W and height H, the HSBS composite
has width `2 * (W // 2)` (equal to W only when W is even) and height H; the
HOU composite has height `2 * (H // 2)` and width W; the FSBS composite has
width `2 * W` and the FOU composite height `2 * H`. -/
theorem c4_pack_dims_amended (S : ℚ) (lr : String)
    (hlr : lr = "LEFT" ∨ lr = "RIGHT") (image depth : Image) :
    ((image3d_processing ⟨S, "HSBS", lr, 0, 0⟩ image depth).map
        fun i => (i.width, i.height)) = some (2 * (image.width / 2), image.height) ∧
    ((image3d_processing ⟨S, "HOU", lr, 0, 0⟩ image depth).map
        fun i => (i.width, i.height)) = some (image.width, 2 * (image.height / 2)) ∧
    ((image3d_processing ⟨S, "FSBS", lr, 0, 0⟩ image depth).map
        fun i => (i.width, i.height)) = some (2 * image.width, image.height) ∧
    ((image3d_processing ⟨S, "FOU", lr, 0, 0⟩ image depth).map
        fun i => (i.width, i.height)) = some (image.width, 2 * image.height) := by
  rcases hlr with h | h <;> subst h <;>
    refine ⟨?_, ?_, ?_, ?_⟩ <;>
      simp [image3d_processing, image3d_pack, np_hstack, np_vstack, cv2_resize,
        warp_left, warp_right, cv2_remap] <;>
      omega

/-- C4 witness: the amended dimension facts at LEFT eye order on the 3x2
test image. -/
theorem c4_pack_dims_amended_witness :
    ((image3d_processing ⟨15, "HSBS", "LEFT", 0, 0⟩ img3x2 img3x2).map
        fun i => (i.width, i.height)) = some (2 * (img3x2.width / 2), img3x2.height) ∧
    ((image3d_processing ⟨15, "HOU", "LEFT", 0, 0⟩ img3x2 img3x2).map
        fun i => (i.width, i.height)) = some (img3x2.width, 2 * (img3x2.height / 2)) ∧
    ((image3d_processing ⟨15, "FSBS", "LEFT", 0, 0⟩ img3x2 img3x2).map
        fun i => (i.width, i.height)) = some (2 * img3x2.width, img3x2.height) ∧
    ((image3d_processing ⟨15, "FOU", "LEFT", 0, 0⟩ img3x2 img3x2).map
        fun i => (i.width, i.height)) = some (img3x2.width, 2 * img3x2.height) :=
  c4_pack_dims_amended 15 "LEFT" (Or.inl rfl) img3x2 img3x2

/-- A recognized `TYPE3D` value. -/
def validType3d (cfg : Config) : Prop :=
  cfg.type3d ∈ (["HSBS", "HOU", "FSBS", "FOU"] : List String)

/-- A recognized `LEFT_RIGHT` value. -/
def validLeftRight (cfg : Config) : Prop :=
  cfg.left_right = "LEFT" ∨ cfg.left_right = "RIGHT"

instance (cfg : Config) : Decidable (validType3d cfg) := by
  unfold validType3d; infer_instance

instance (cfg : Config) : Decidable (validLeftRight cfg) := by
  unfold validLeftRight; infer_instance

/-- With an unrecognized `TYPE3D` or `LEFT_RIGHT`, no branch of the if-chain
assigns `image3d`. -/
theorem image3d_pack_eq_none (cfg : Config)
    (hbad : ¬ validType3d cfg ∨ ¬ validLeftRight cfg)
    (w h : ℕ) (li ri : Image) : image3d_pack cfg w h li ri = none := by
  rcases hbad with hb | hb
  · simp only [validType3d, List.mem_cons, List.not_mem_nil, or_false] at hb
    push_neg at hb
    obtain ⟨h1, h2, h3, h4⟩ := hb
    simp [image3d_pack, h1, h2, h3, h4]
  · simp only [validLeftRight, not_or] at hb
    obtain ⟨h1, h2⟩ := hb
    simp [image3d_pack, h1, h2]

/-- With an unrecognized `TYPE3D` or `LEFT_RIGHT`, `image3d_processing`
reaches the save step with `image3d` unassigned, whatever the inputs. -/
theorem image3d_processing_eq_none (cfg : Config)
    (hbad : ¬ validType3d cfg ∨ ¬ validLeftRight cfg)
    (image depth : Image) : image3d_processing cfg image depth = none := by
  rw [image3d_processing]
  split <;> exact image3d_pack_eq_none cfg hbad _ _ _ _

/-- With recognized `TYPE3D` and `LEFT_RIGHT`, the if-chain assigns a
composite. -/
theorem image3d_pack_isSome (cfg : Config)
    (ht : validType3d cfg) (hl : validLeftRight cfg)
    (w h : ℕ) (li ri : Image) : (image3d_pack cfg w h li ri).isSome := by
  simp only [validType3d, List.mem_cons, List.not_mem_nil, or_false] at ht
  rcases hl with h2 | h2 <;>
    rcases ht with h1 | h1 | h1 | h1 <;>
      simp [image3d_pack, h1, h2]

/-- With recognized `TYPE3D` and `LEFT_RIGHT`, `image3d_processing` produces
a composite. -/
theorem image3d_processing_isSome (cfg : Config)
    (ht : validType3d cfg) (hl : validLeftRight cfg)
    (image depth : Image) : (image3d_processing cfg image depth).isSome := by
  rw [image3d_processing]
  split <;> exact image3d_pack_isSome cfg ht hl _ _ _ _

/-- The per-frame driver on a decodable regular file under a recognized
configuration: the composite write is attempted (its boolean result ignored)
and the source is deleted unconditionally; no exception is raised. -/
theorem chunk_frame_step_ok (cfg : Config) (f : FrameFile)
    (hfile : f.isFile = true) (hread : f.readable = true)
    (ht : validType3d cfg) (hl : validLeftRight cfg) :
    chunk_frame_step cfg f = (⟨f.writeOk, true⟩, none) := by
  obtain ⟨c, hc⟩ := Option.isSome_iff_exists.mp
    (image3d_processing_isSome cfg ht hl f.image (image_normalize_minmax_u8 f.depth))
  simp [chunk_frame_step, depth_processing, hfile, hread, hc]

/-- C10: with `TYPE3D` outside HSBS/FSBS/HOU/FOU, or `LEFT_RIGHT` neither
LEFT nor RIGHT, `image3d_processing` reaches the save step with `image3d`
never assigned, so `cv2.imwrite` raises `UnboundLocalError`: no composite
output is written and the source frame is not deleted. -/
theorem c10_invalid_config_unbound (cfg : Config) (f : FrameFile)
    (hfile : f.isFile = true) (hread : f.readable = true)
    (hbad : ¬ validType3d cfg ∨ ¬ validLeftRight cfg) :
    image3d_processing cfg f.image (image_normalize_minmax_u8 f.depth) = none ∧
    chunk_frame_step cfg f = (⟨false, false⟩, some PyError.unboundLocalImage3d) := by
  have hn := image3d_processing_eq_none cfg hbad f.image
    (image_normalize_minmax_u8 f.depth)
  refine ⟨hn, ?_⟩
  simp [chunk_frame_step, depth_processing, hfile, hread, hn]

/-- C10 witness: `TYPE3D = "SBS"` (unrecognized) on a processable frame. -/
theorem c10_invalid_config_unbound_witness :
    image3d_processing ⟨15, "SBS", "LEFT", 0, 0⟩ goodFrame.image
      (image_normalize_minmax_u8 goodFrame.depth) = none ∧
    chunk_frame_step ⟨15, "SBS", "LEFT", 0, 0⟩ goodFrame =
      (⟨false, false⟩, some PyError.unboundLocalImage3d) :=
  c10_invalid_config_unbound ⟨15, "SBS", "LEFT", 0, 0⟩ goodFrame rfl rfl
    (Or.inl (by decide))

/-- C1 counterexample: a frame whose composite write fails (`cv2.imwrite`
returns `False`) under the script's configuration. The driver reports no
failure (`none`) and deletes the source anyway (`deleted = true`),
contradicting "reports failure for that frame without deleting the
source". -/
theorem c1_write_failure_cex :
    badWriteFrame.writeOk = false ∧
    chunk_frame_step defaultConfig badWriteFrame =
      (⟨false, true⟩, none) := by
  constructor
  · rfl
  · rfl

/-- C1 amended: on a composite-output write failure the Pipeline Driver does
NOT report a failure and does NOT retain the source: `cv2.imwrite`'s boolean
result is ignored and `os.remove` runs unconditionally afterwards, so the
frame ends with no output written, the source deleted, and no error. -/
theorem c1_write_failure_amended (cfg : Config) (f : FrameFile)
    (hfile : f.isFile = true) (hread : f.readable = true)
    (ht : validType3d cfg) (hl : validLeftRight cfg)
    (hw : f.writeOk = false) :
    chunk_frame_step cfg f = (⟨false, true⟩, none) := by
  rw [chunk_frame_step_ok cfg f hfile hread ht hl, hw]

/-- C1 witness: the write-failure frame under the script's configuration. -/
theorem c1_write_failure_amended_witness :
    chunk_frame_step defaultConfig badWriteFrame = (⟨false, true⟩, none) :=
  c1_write_failure_amended defaultConfig badWriteFrame rfl rfl (by decide)
    (by decide) rfl

/-- C2 counterexample: a chunk of 3 frames whose first is corrupt. The
decode failure is NOT contained at frame granularity: the uncaught exception
from inferring on `cv2.imread`'s `None` aborts the whole chunk, so 0
composite frames are produced (the claim promises exactly 2) and the two
good frames are never processed (their sources retained, nothing written). -/
theorem c2_decode_failure_cex :
    ((chunk_processing defaultConfig [corruptFrame, goodFrame, goodFrame]).1.countP
        (fun r => r.wrote)) = 0 ∧ (0 : ℕ) ≠ 2 ∧
    (chunk_processing defaultConfig [corruptFrame, goodFrame, goodFrame]).2 =
      some PyError.inferOnNoneImage := by
  refine ⟨?_, ?_, ?_⟩
  · rfl
  · decide
  · rfl

/-- C2 amended: a decode failure aborts the chunk at the corrupt frame.
Every frame before it in the chunk is processed (output written when its
write succeeded, source deleted); the corrupt frame and every frame after it
are left untouched (no output, source retained); the chunk loop ends with
the uncaught inference exception. -/
theorem c2_decode_abort_amended (cfg : Config) (pre post : List FrameFile)
    (f : FrameFile)
    (hpre : ∀ g ∈ pre, g.isFile = true ∧ g.readable = true)
    (ht : validType3d cfg) (hl : validLeftRight cfg)
    (hfile : f.isFile = true) (hread : f.readable = false) :
    chunk_processing cfg (pre ++ f :: post) =
      (pre.map (fun g => ⟨g.writeOk, true⟩) ++
         (⟨false, false⟩ : FrameResult) :: post.map (fun _ => ⟨false, false⟩),
       some PyError.inferOnNoneImage) := by
  induction pre with
  | nil =>
    have hstep : chunk_frame_step cfg f =
        (⟨false, false⟩, some PyError.inferOnNoneImage) := by
      simp [chunk_frame_step, depth_processing, hfile, hread]
    simp [chunk_processing, hstep]
  | cons g gs ih =>
    have hg := hpre g (List.mem_cons_self g gs)
    have hstep := chunk_frame_step_ok cfg g hg.1 hg.2 ht hl
    have ih2 := ih (fun a ha => hpre a (List.mem_cons_of_mem g ha))
    simp only [List.cons_append, chunk_processing, hstep, List.append_eq, ih2,
      List.map_cons]

/-- C2 witness: one good frame, then the corrupt frame, then one good frame,
under the script's configuration: exactly the first frame is processed. -/
theorem c2_decode_abort_amended_witness :
    chunk_processing defaultConfig ([goodFrame] ++ corruptFrame :: [goodFrame]) =
      ([goodFrame].map (fun g => ⟨g.writeOk, true⟩) ++
         (⟨false, false⟩ : FrameResult) ::
           [goodFrame].map (fun _ => ⟨false, false⟩),
       some PyError.inferOnNoneImage) :=
  c2_decode_abort_amended defaultConfig [goodFrame] [goodFrame] corruptFrame
    (by decide) (by decide) (by decide) rfl rfl

/-- The chunk starting at a position inside the list is the `C`-prefix of the
list's tail there: `min(start + C - 1, L - 1) + 1 - start` elements of
`lst[start:]` are `C` elements, truncated at the list's end. -/
theorem extract_frames_take {α : Type} (lst : List α) (C s : ℕ) (hC : 0 < C)
    (hs : s < lst.length) :
    extract_frames lst s (min (s + C - 1) (lst.length - 1)) = (lst.drop s).take C := by
  rw [extract_frames, List.take_eq_take, List.length_drop]
  rcases le_total (s + C - 1) (lst.length - 1) with h | h
  · rw [min_eq_left h]; omega
  · rw [min_eq_right h]; omega

/-- Every chunk the partitioner builds has at most `C` elements. -/
theorem extract_frames_length_le {α : Type} (lst : List α) (C s : ℕ) (hC : 0 < C) :
    (extract_frames lst s (min (s + C - 1) (lst.length - 1))).length ≤ C := by
  rw [extract_frames, List.length_take, List.length_drop]
  rcases le_total (s + C - 1) (lst.length - 1) with h | h
  · rw [min_eq_left h]; omega
  · rw [min_eq_right h]; omega

/-- Concatenating the chunks whose starts run from `s` (in steps of `C`)
rebuilds the list's tail from `s`. -/
theorem run_chunks_flatten_aux {α : Type} (C : ℕ) (hC : 0 < C) (lst : List α) :
    ∀ n s, lst.length - s ≤ n →
      ((rangeStep C s lst.length).map fun t =>
          extract_frames lst t (min (t + C - 1) (lst.length - 1))).flatten =
        lst.drop s := by
  intro n
  induction n with
  | zero =>
    intro s hs
    rw [rangeStep, dif_neg (by omega)]
    rw [List.map_nil, List.flatten_nil, List.drop_eq_nil_of_le (by omega)]
  | succ n ih =>
    intro s hs
    by_cases h : s < lst.length
    · rw [rangeStep, dif_pos ⟨h, hC⟩, List.map_cons, List.flatten_cons,
        extract_frames_take lst C s hC h, ih (s + C) (by omega),
        ← List.drop_drop, List.take_append_drop]
    · rw [rangeStep, dif_neg (by omega)]
      rw [List.map_nil, List.flatten_nil, List.drop_eq_nil_of_le (by omega)]

/-- The number of chunk starts from `s` is the ceiling of the remaining
length divided by `C`. -/
theorem rangeStep_length (C : ℕ) (hC : 0 < C) (L : ℕ) :
    ∀ n s, L - s ≤ n → (rangeStep C s L).length = (L - s + C - 1) / C := by
  intro n
  induction n with
  | zero =>
    intro s hs
    rw [rangeStep, dif_neg (by omega), List.length_nil]
    rw [show L - s + C - 1 = C - 1 by omega, Nat.div_eq_of_lt (by omega)]
  | succ n ih =>
    intro s hs
    by_cases h : s < L
    · rw [rangeStep, dif_pos ⟨h, hC⟩, List.length_cons, ih (s + C) (by omega)]
      rw [show L - s + C - 1 = (L - s - 1) + C by omega, Nat.add_div_right _ hC]
      rcases le_or_lt C (L - s) with hm | hm
      · rw [show L - (s + C) + C - 1 = L - s - 1 by omega]
      · rw [show L - (s + C) + C - 1 = C - 1 by omega,
          Nat.div_eq_of_lt (by omega), Nat.div_eq_of_lt (by omega)]
    · rw [rangeStep, dif_neg (by omega), List.length_nil]
      rw [show L - s + C - 1 = C - 1 by omega, Nat.div_eq_of_lt (by omega)]

/-- Every start except possibly the last leaves at least a full chunk of
entries before the end of the list: a non-final start `t` satisfies
`t + C ≤ L` (its successor `t + C` is itself a start, and starts are
below `L`). -/
theorem rangeStep_dropLast_le (C : ℕ) (hC : 0 < C) (L : ℕ) :
    ∀ n s, L - s ≤ n → ∀ t ∈ (rangeStep C s L).dropLast, t + C ≤ L := by
  intro n
  induction n with
  | zero =>
    intro s hs t ht
    rw [rangeStep, dif_neg (by omega)] at ht
    simp at ht
  | succ n ih =>
    intro s hs t ht
    by_cases h : s < L
    · rw [rangeStep, dif_pos ⟨h, hC⟩] at ht
      by_cases h2 : s + C < L
      · rw [rangeStep, dif_pos ⟨h2, hC⟩, List.dropLast_cons₂] at ht
        rcases List.mem_cons.mp ht with rfl | ht2
        · omega
        · apply ih (s + C) (by omega)
          rw [rangeStep, dif_pos ⟨h2, hC⟩]
          exact ht2
      · rw [rangeStep, dif_neg (by omega)] at ht
        simp at ht
    · rw [rangeStep, dif_neg (by omega)] at ht
      simp at ht

/-- C6: for every frame list and every chunk size C greater than 0, the
chunks `run_processing` submits are contiguous slices that concatenate to
the original list exactly (no overlap, no gaps), each chunk has at most C
entries, every chunk except possibly the final one has exactly C entries
(only the final chunk may be shorter), and the number of chunks is the
ceiling of L / C. -/
theorem c6_partitioner {α : Type} (lst : List α) (C : ℕ) (hC : 0 < C) :
    (run_processing_chunks lst C).flatten = lst ∧
    (∀ c ∈ run_processing_chunks lst C, c.length ≤ C) ∧
    (∀ c ∈ (run_processing_chunks lst C).dropLast, c.length = C) ∧
    (run_processing_chunks lst C).length = (lst.length + C - 1) / C := by
  refine ⟨?_, ?_, ?_, ?_⟩
  · have h := run_chunks_flatten_aux C hC lst lst.length 0 (by omega)
    rw [List.drop_zero] at h
    exact h
  · intro c hc
    rw [run_processing_chunks, List.mem_map] at hc
    obtain ⟨s, -, rfl⟩ := hc
    exact extract_frames_length_le lst C s hC
  · intro c hc
    rw [run_processing_chunks, ← List.map_dropLast, List.mem_map] at hc
    obtain ⟨t, ht, rfl⟩ := hc
    have hle := rangeStep_dropLast_le C hC lst.length lst.length 0 (by omega) t ht
    have htL : t < lst.length := by omega
    rw [extract_frames_take lst C t hC htL, List.length_take, List.length_drop]
    omega
  · rw [run_processing_chunks, List.length_map,
      rangeStep_length C hC lst.length lst.length 0 (by omega), Nat.sub_zero]

/-- C6 witness: a 3-element list with chunk size 2 gives chunks [0, 1], [2]:
they flatten back, each has at most 2 entries, every non-final chunk has
exactly 2, and there are ceil(3/2) = 2 of them. -/
theorem c6_partitioner_witness :
    0 < 2 ∧
    ((run_processing_chunks [0, 1, 2] 2).flatten = [0, 1, 2] ∧
     (∀ c ∈ run_processing_chunks [0, 1, 2] 2, c.length ≤ 2) ∧
     (∀ c ∈ (run_processing_chunks [0, 1, 2] 2).dropLast, c.length = 2) ∧
     (run_processing_chunks [0, 1, 2] 2).length =
       (([0, 1, 2] : List ℕ).length + 2 - 1) / 2) :=
  ⟨by decide, c6_partitioner [0, 1, 2] 2 (by decide)⟩

/-- The running minimum is a lower bound of the traversed values. -/
theorem foldl_min_le_of_mem (vs : List ℚ) :
    ∀ v a : ℚ, a ∈ v :: vs → vs.foldl min v ≤ a := by
  induction vs with
  | nil =>
    intro v a ha
    rw [List.mem_singleton] at ha
    rw [ha, List.foldl_nil]
  | cons w ws ih =>
    intro v a ha
    rw [List.foldl_cons]
    rcases List.mem_cons.mp ha with rfl | ha2
    · exact le_trans (ih (min a w) (min a w) (List.mem_cons_self _ _)) (min_le_left _ _)
    · rcases List.mem_cons.mp ha2 with rfl | ha3
      · exact le_trans (ih (min v a) (min v a) (List.mem_cons_self _ _)) (min_le_right _ _)
      · exact ih (min v w) a (List.mem_cons_of_mem _ ha3)

/-- The running maximum is an upper bound of the traversed values. -/
theorem le_foldl_max_of_mem (vs : List ℚ) :
    ∀ v a : ℚ, a ∈ v :: vs → a ≤ vs.foldl max v := by
  induction vs with
  | nil =>
    intro v a ha
    rw [List.mem_singleton] at ha
    rw [ha, List.foldl_nil]
  | cons w ws ih =>
    intro v a ha
    rw [List.foldl_cons]
    rcases List.mem_cons.mp ha with rfl | ha2
    · exact le_trans (le_max_left _ _) (ih (max a w) (max a w) (List.mem_cons_self _ _))
    · rcases List.mem_cons.mp ha2 with rfl | ha3
      · exact le_trans (le_max_right _ _) (ih (max v a) (max v a) (List.mem_cons_self _ _))
      · exact ih (max v w) a (List.mem_cons_of_mem _ ha3)

/-- The running minimum is one of the traversed values. -/
theorem foldl_min_mem (vs : List ℚ) : ∀ v : ℚ, vs.foldl min v ∈ v :: vs := by
  induction vs with
  | nil => intro v; rw [List.foldl_nil]; exact List.mem_singleton_self v
  | cons w ws ih =>
    intro v
    rw [List.foldl_cons]
    rcases List.mem_cons.mp (ih (min v w)) with h | h
    · rcases min_choice v w with h2 | h2 <;> rw [h, h2]
      · exact List.mem_cons_self _ _
      · exact List.mem_cons_of_mem _ (List.mem_cons_self _ _)
    · exact List.mem_cons_of_mem _ (List.mem_cons_of_mem _ h)

/-- The running maximum is one of the traversed values. -/
theorem foldl_max_mem (vs : List ℚ) : ∀ v : ℚ, vs.foldl max v ∈ v :: vs := by
  induction vs with
  | nil => intro v; rw [List.foldl_nil]; exact List.mem_singleton_self v
  | cons w ws ih =>
    intro v
    rw [List.foldl_cons]
    rcases List.mem_cons.mp (ih (max v w)) with h | h
    · rcases max_choice v w with h2 | h2 <;> rw [h, h2]
      · exact List.mem_cons_self _ _
      · exact List.mem_cons_of_mem _ (List.mem_cons_self _ _)
    · exact List.mem_cons_of_mem _ (List.mem_cons_of_mem _ h)

/-- C9: on a nonempty depth field, (a) if all values are equal then the
normalized output is uniformly 0 (the `smax - smin > 0` guard makes the
scale 0 instead of dividing by zero); (b) otherwise the output is the
linear min-max rescale `floor((a - min) * 255 / (max - min))`, every output
value lies in the 8-bit range [0, 255], the minimum maps to 0 and the
maximum to 255. -/
theorem c9_normalizer (v : ℚ) (vs : List ℚ) :
    ((∀ a ∈ v :: vs, a = v) →
      ∀ o ∈ cv2_normalize_minmax_u8 (v :: vs), o = 0) ∧
    (vs.foldl min v < vs.foldl max v →
      cv2_normalize_minmax_u8 (v :: vs) =
        (v :: vs).map (fun a =>
          ⌊(a - vs.foldl min v) * (255 / (vs.foldl max v - vs.foldl min v))⌋) ∧
      (∀ o ∈ cv2_normalize_minmax_u8 (v :: vs), 0 ≤ o ∧ o ≤ 255) ∧
      ⌊(vs.foldl min v - vs.foldl min v) *
        (255 / (vs.foldl max v - vs.foldl min v))⌋ = 0 ∧
      ⌊(vs.foldl max v - vs.foldl min v) *
        (255 / (vs.foldl max v - vs.foldl min v))⌋ = 255) := by
  constructor
  · intro huni o ho
    have hmin : vs.foldl min v = v := huni _ (foldl_min_mem vs v)
    have hmax : vs.foldl max v = v := huni _ (foldl_max_mem vs v)
    rw [cv2_normalize_minmax_u8] at ho
    simp only [hmin, hmax, sub_self, gt_iff_lt, lt_self_iff_false, if_false,
      mul_zero, zero_sub, neg_zero, add_zero, List.mem_map] at ho
    obtain ⟨a, -, rfl⟩ := ho
    simp
  · intro hlt
    set m := vs.foldl min v with hm
    set M := vs.foldl max v with hM
    have hMm : (0 : ℚ) < M - m := by linarith
    have hscale : (0 : ℚ) < 255 / (M - m) := by positivity
    have hmap : cv2_normalize_minmax_u8 (v :: vs) =
        (v :: vs).map (fun a => ⌊(a - m) * (255 / (M - m))⌋) := by
      rw [cv2_normalize_minmax_u8]
      simp only [← hm, ← hM, gt_iff_lt, hMm, if_pos]
      refine List.map_congr_left fun a _ => ?_
      congr 1
      ring
    refine ⟨hmap, ?_, ?_, ?_⟩
    · intro o ho
      rw [hmap, List.mem_map] at ho
      obtain ⟨a, ha, rfl⟩ := ho
      have h1 : m ≤ a := foldl_min_le_of_mem vs v a ha
      have h2 : a ≤ M := le_foldl_max_of_mem vs v a ha
      constructor
      · exact Int.floor_nonneg.mpr (mul_nonneg (by linarith) hscale.le)
      · have hle : (a - m) * (255 / (M - m)) ≤ 255 := by
          have h3 : (a - m) * (255 / (M - m)) ≤ (M - m) * (255 / (M - m)) := by
            apply mul_le_mul_of_nonneg_right (by linarith) hscale.le
          rw [mul_comm (M - m) (255 / (M - m)), div_mul_cancel₀ _ (ne_of_gt hMm)] at h3
          linarith
        calc ⌊(a - m) * (255 / (M - m))⌋ ≤ ⌊(255 : ℚ)⌋ := Int.floor_le_floor hle
          _ = 255 := by norm_num
    · rw [sub_self, zero_mul, Int.floor_zero]
    · rw [mul_comm (M - m) (255 / (M - m)), div_mul_cancel₀ _ (ne_of_gt hMm)]
      norm_num

/-- C9 witness: the uniform field [5, 5] normalizes to all zeros; the field
[0, 510] has min 0 and max 510, scale 1/2, minimum maps to 0, maximum to
255, and all outputs are 8-bit. -/
theorem c9_normalizer_witness :
    (∀ o ∈ cv2_normalize_minmax_u8 [(5 : ℚ), 5], o = 0) ∧
    (cv2_normalize_minmax_u8 [(0 : ℚ), 510] =
        ([(0 : ℚ), 510]).map (fun a =>
          ⌊(a - [(510 : ℚ)].foldl min 0) *
            (255 / ([(510 : ℚ)].foldl max 0 - [(510 : ℚ)].foldl min 0))⌋) ∧
      (∀ o ∈ cv2_normalize_minmax_u8 [(0 : ℚ), 510], 0 ≤ o ∧ o ≤ 255) ∧
      ⌊(([(510 : ℚ)].foldl min 0) - [(510 : ℚ)].foldl min 0) *
        (255 / ([(510 : ℚ)].foldl max 0 - [(510 : ℚ)].foldl min 0))⌋ = 0 ∧
      ⌊(([(510 : ℚ)].foldl max 0) - [(510 : ℚ)].foldl min 0) *
        (255 / ([(510 : ℚ)].foldl max 0 - [(510 : ℚ)].foldl min 0))⌋ = 255) :=
  ⟨(c9_normalizer 5 [5]).1 (by decide),
   (c9_normalizer 0 [510]).2 (by norm_num)⟩

end Make3D
